import Mathlib

/-!
Verification of the pact reconciliation engine (cloudboy-jh/pact).

This file shallowly embeds the core of the Go implementation:

* the untyped manifest tree and its accessors (`internal/config/pact.go`),
* the sync-item enumeration (`findFilesRecursive`, `parseFileEntry`,
  `resolveTarget`),
* the file sync engine (`internal/sync`: `syncItem`, `SyncAll`),
* the apply engine's tool installation (`internal/apply`: `installTool`),
* the diff engine (`internal/detect/diff.go`: `compareEditor`, `compareLLM`),
* the merge engine (`internal/detect/shell.go`: `Merge`,
  `mergeStringSlices`, `getStringSlice`, `getOrCreateMap`).

Modelling conventions:

* Go `map[string]any` values are represented as association lists
  `List (String × Value)`; the list order stands for the (unspecified,
  randomised) Go map iteration order.  Lookup ignores that order, exactly as
  Go map indexing does.
* The filesystem is a finite association list from path strings to nodes
  (regular file, directory, or symbolic link).  `os.Stat` follows symlink
  chains (with fuel), `os.Lstat` does not.  File contents and permission
  bits are not modelled; no claim below mentions them.
* String splitting on a separator character and prefix tests are
  reimplemented over `List Char` so that concrete instances reduce inside
  the kernel; they agree with `strings.Split` / `strings.HasPrefix` for the
  single-character separators the code uses.
* Processes (`exec.LookPath`, `exec.Command`) are oracles passed in as
  function parameters; `installTool` additionally returns the list of
  commands it spawned.
-/

set_option autoImplicit false

namespace Pact

/-- JSON-like value of the untyped manifest tree (`PactConfig.Raw`). -/
inductive Value where
  | str (s : String)
  | num (n : Int)
  | bool (b : Bool)
  | list (xs : List Value)
  | obj (m : List (String × Value))

/-- A Go `map[string]any`, as an association list whose order models the
(unspecified) map iteration order. -/
abbrev Obj := List (String × Value)

/-- Go map indexing `m[k]`: the value stored under `k`, ignoring order. -/
def lookupKey (m : Obj) (k : String) : Option Value :=
  match m with
  | [] => none
  | (k1, v) :: rest => if k1 = k then some v else lookupKey rest k

/-- Go map assignment `m[k] = v` under value semantics: replace the binding
in place, or append a fresh one. -/
def setKey (m : Obj) (k : String) (v : Value) : Obj :=
  match m with
  | [] => [(k, v)]
  | (k1, v1) :: rest => if k1 = k then (k, v) :: rest else (k1, v1) :: setKey rest k v

/-- Character-level splitter agreeing with Go `strings.Split` for a
one-character separator. -/
def splitChar (sep : Char) : List Char → List (List Char)
  | [] => [[]]
  | c :: rest =>
    let r := splitChar sep rest
    if c = sep then [] :: r
    else
      match r with
      | h :: t => (c :: h) :: t
      | [] => [[c]]

/-- Split a string on a separator character (kernel-reducible stand-in for
`strings.Split`). -/
def splitStr (sep : Char) (s : String) : List String :=
  (splitChar sep s.data).map (fun l => ⟨l⟩)

/-- Character-level prefix test. -/
def isPrefixChars : List Char → List Char → Bool
  | _, [] => true
  | [], _ :: _ => false
  | c :: s, p :: ps => c = p && isPrefixChars s ps

/-- Kernel-reducible stand-in for Go `strings.HasPrefix s pre`. -/
def strStartsWith (s pre : String) : Bool :=
  isPrefixChars s.data pre.data

/-! ## Manifest model (`internal/config/pact.go`) -/

/-- Model of `PactConfig.Get`: walk a dot-separated path through the untyped tree,
returning `none` where Go returns `nil`. -/
def getParts : Option Value → List String → Option Value
  | cur, [] => cur
  | some (.obj m), p :: rest => getParts (lookupKey m p) rest
  | _, _ :: _ => none

/-- Model of `PactConfig.Get(path)` over the raw manifest object. -/
def Get (raw : Obj) (path : String) : Option Value :=
  getParts (some (.obj raw)) (splitStr '.' path)

/-- Model of `PactConfig.GetString`: string value at a path, or `""`. -/
def GetString (raw : Obj) (path : String) : String :=
  match Get raw path with
  | some (.str s) => s
  | _ => ""

/-- Model of `PactConfig.GetStringSlice`: the string elements of a list value at a
path; non-string elements are dropped, non-lists give the empty slice. -/
def GetStringSlice (raw : Obj) (path : String) : List String :=
  match Get raw path with
  | some (.list xs) => xs.filterMap (fun v => match v with | .str s => some s | _ => none)
  | _ => []

/-- Model of `config.ExpandPath`: expand a leading `~/` to the home directory. -/
def expandPath (home p : String) : String :=
  if strStartsWith p "~/" then home ++ "/" ++ p.drop 2 else p

/-- Model of `filepath.Join` restricted to the two-argument, already-clean case the
code exercises. -/
def joinPath (a b : String) : String := a ++ "/" ++ b

/-- Model of `resolveTarget`: a string target is `~`-expanded; a map target is looked
up under the current OS key (a present but non-string value also fails,
exactly as in the Go type switch); anything else is an invalid target. -/
def resolveTarget (home os : String) (target : Option Value) : Except String String :=
  match target with
  | some (.str t) => .ok (expandPath home t)
  | some (.obj t) =>
    match lookupKey t os with
    | some (.str pathStr) => .ok (expandPath home pathStr)
    | _ => .error ("no target configured for " ++ os)
  | _ => .error "invalid target type"

/-! ## Filesystem model -/

/-- A filesystem node: regular file, directory, or symbolic link storing its
link value.  Contents and permissions are not modelled. -/
inductive FSNode where
  | file
  | dir
  | symlink (target : String)
deriving DecidableEq, Repr

/-- Filesystem state: association list from absolute path to node. -/
abbrev FS := List (String × FSNode)

/-- Model of `os.Lstat`: look a path up without following symlinks. -/
def lookupFS (fs : FS) (p : String) : Option FSNode :=
  match fs with
  | [] => none
  | (q, n) :: rest => if q = p then some n else lookupFS rest p

/-- Create-or-replace a node at a path. -/
def setFS (fs : FS) (p : String) (n : FSNode) : FS :=
  match fs with
  | [] => [(p, n)]
  | (q, m) :: rest => if q = p then (p, n) :: rest else (q, m) :: setFS rest p n

/-- Model of `os.Stat` with fuel for symlink chains; `none` is any stat error
(absent path or too many links). -/
def statFuel (fs : FS) : Nat → String → Option FSNode
  | 0, _ => none
  | fuel + 1, p =>
    match lookupFS fs p with
    | some (.symlink t) => statFuel fs fuel t
    | some n => some n
    | none => none

/-- Model of `os.Stat`: follow symlinks, with fuel bounded by the filesystem size. -/
def statFS (fs : FS) (p : String) : Option FSNode :=
  statFuel fs (fs.length + 1) p

/-- Model of `parseFileEntry` (`internal/config/pact.go`): a file entry needs a
string `source` and a target resolvable for the current OS; otherwise it is
dropped (`nil`), never an error. -/
structure SyncItem where
  Module : String
  Name : String
  Source : String
  Target : String
  Strategy : String
  IsDir : Bool
deriving DecidableEq, Repr

def parseFileEntry (fs : FS) (pactDir home os : String) (module name : String)
    (entry : Obj) : Option SyncItem :=
  match lookupKey entry "source" with
  | some (.str source) =>
    match resolveTarget home os (lookupKey entry "target") with
    | .ok target =>
      let strategy := match lookupKey entry "strategy" with | some (.str s) => s | _ => ""
      let sourcePath := joinPath pactDir source
      some { Module := module, Name := name, Source := sourcePath, Target := target,
             Strategy := strategy, IsDir := statFS fs sourcePath = some .dir }
    | .error _ => none
  | _ => none

/-- The `for name, fileEntry := range files` loop body of
`findFilesRecursive`: keep the entries that are objects and parse. -/
def fileEntriesOf (fs : FS) (pactDir home os module : String) (files : Obj) :
    List SyncItem :=
  files.filterMap (fun e =>
    match e.2 with
    | .obj entry => parseFileEntry fs pactDir home os module e.1 entry
    | _ => none)

mutual

/-- Model of `findFilesRecursive`: collect the `files` map of this node, then recurse
into child objects (skipping the `files` key), keeping the nearest
enclosing top-level module name. -/
def findFilesRec (fs : FS) (pactDir home os : String) : String → Value → List SyncItem
  | module, .obj m =>
    (match lookupKey m "files" with
     | some (.obj files) => fileEntriesOf fs pactDir home os module files
     | _ => []) ++ findFilesList fs pactDir home os module m
  | _, _ => []

/-- The recursion loop of `findFilesRecursive` over the node's key/value
pairs, in map iteration order. -/
def findFilesList (fs : FS) (pactDir home os : String) : String → List (String × Value) → List SyncItem
  | _, [] => []
  | module, (k, v) :: rest =>
    (if k = "files" then []
     else
       match v with
       | .obj m => findFilesRec fs pactDir home os (if module = "" then k else module) (.obj m)
       | _ => []) ++ findFilesList fs pactDir home os module rest

end

/-- Model of `PactConfig.GetSyncItems`: walk the whole raw tree from the root with
the empty module label (the directory-resolution error path is the only Go
error source and is factored out into the `pactDir` parameter). -/
def GetSyncItems (fs : FS) (pactDir home os : String) (raw : Obj) : List SyncItem :=
  findFilesRec fs pactDir home os "" (.obj raw)

/-! ## Sync engine (`internal/sync`) -/

/-- Model of `sync.Result`. -/
structure SyncResult where
  Module : String
  Name : String
  Success : Bool := false
  Error : Option String := none
  Skipped : Bool := false
  Message : String := ""
deriving DecidableEq, Repr

/-- Model of `filepath.Dir` on the already-clean paths the engine uses: everything
before the final separator (`"."` when there is none, `"/"` at the root). -/
def dirOf (p : String) : String :=
  let parts := splitStr '/' p
  if parts.length ≤ 1 then "."
  else
    let d := String.intercalate "/" parts.dropLast
    if d = "" then "/" else d

/-- The directory paths `os.MkdirAll p` materialises: every non-empty
prefix of `p`, innermost last. -/
def prefixPaths (p : String) : List String :=
  let parts := splitStr '/' p
  (List.range parts.length).filterMap (fun i =>
    let q := String.intercalate "/" (parts.take (i + 1))
    if q = "" then none else some q)

/-- Model of `os.MkdirAll`: fails if some prefix is occupied by a non-directory,
otherwise creates the missing directories (symlinked ancestors are not
modelled and count as occupied). -/
def mkdirAll (p : String) (fs : FS) : Option FS :=
  if (prefixPaths p).all (fun q =>
      match lookupFS fs q with
      | some .dir => true
      | none => true
      | some _ => false)
  then some ((prefixPaths p).foldl
    (fun acc q => if (lookupFS acc q).isSome then acc else acc ++ [(q, FSNode.dir)]) fs)
  else none

/-- Model of `os.RemoveAll p`: drop the entry at `p` and everything below it. -/
def removeAll (p : String) (fs : FS) : FS :=
  fs.filter (fun e => !(e.1 = p || strStartsWith e.1 (p ++ "/")))

/-- Model of `filepath.Abs` relative to the process working directory (path cleaning
is not modelled; the engine only hands it already-clean paths). -/
def absPath (cwd p : String) : String :=
  if strStartsWith p "/" then p else cwd ++ "/" ++ p

/-- Model of `os.Symlink absSource target`: fails if the target path exists. -/
def symlinkFS (absSource target : String) (fs : FS) : Option FS :=
  if (lookupFS fs target).isSome then none else some (fs ++ [(target, .symlink absSource)])

/-- Model of `createSymlink` (the Go function also receives an `isDir` flag it never
uses): resolve the source to an absolute path and link to it. -/
def createSymlink (cwd source target : String) (fs : FS) : Option FS :=
  symlinkFS (absPath cwd source) target fs

/-- Model of `copyFile`: the source must resolve to a regular file; a node is
created at the target (contents are not modelled). -/
def copyFileFS (source target : String) (fs : FS) : Option FS :=
  match statFS fs source with
  | some .file => some (setFS fs target .file)
  | _ => none

/-- Model of `copyDir`: the source must resolve to a directory; the target directory
is created and every recorded descendant is re-rooted under it (child
symlinks are copied as nodes; per-file contents are not modelled). -/
def copyDirFS (source target : String) (fs : FS) : Option FS :=
  match statFS fs source with
  | some .dir =>
    let descendants := fs.filter (fun e => strStartsWith e.1 (source ++ "/"))
    some (setFS fs target .dir ++
      descendants.map (fun e => (target ++ e.1.drop source.length, e.2)))
  | _ => none

/-- Model of `syncItem`: stat the source, default the strategy to `symlink`, create
the target's parent directory, remove any existing target, then link or
copy; every failure is recorded in the Result for this item alone, and the
returned state keeps whatever side effects already happened. -/
def syncItem (cwd : String) (fs : FS) (item : SyncItem) : SyncResult × FS :=
  let result : SyncResult := { Module := item.Module, Name := item.Name }
  match statFS fs item.Source with
  | none => ({ result with Error := some ("source not found: " ++ item.Source) }, fs)
  | some sourceInfo =>
    let strategy := if item.Strategy = "" then "symlink" else item.Strategy
    match mkdirAll (dirOf item.Target) fs with
    | none => ({ result with Error := some "failed to create target directory" }, fs)
    | some fs1 =>
      let fs2 := if (lookupFS fs1 item.Target).isSome then removeAll item.Target fs1 else fs1
      if strategy = "symlink" then
        match createSymlink cwd item.Source item.Target fs2 with
        | none => ({ result with Error := some "failed to create symlink" }, fs2)
        | some fs3 =>
          ({ result with
              Success := true
              Message := "symlinked " ++ item.Target ++ " -> " ++ item.Source }, fs3)
      else if strategy = "copy" then
        match (if sourceInfo = .dir then copyDirFS item.Source item.Target fs2
               else copyFileFS item.Source item.Target fs2) with
        | none => ({ result with Error := some "copy failed" }, fs2)
        | some fs3 =>
          ({ result with
              Success := true
              Message := "copied " ++ item.Source ++ " -> " ++ item.Target }, fs3)
      else
        ({ result with Error := some ("unknown strategy: " ++ strategy) }, fs2)

/-- The loop of `sync.SyncAll`: one `syncItem` call per item, in order,
threading the filesystem state and appending every Result. -/
def syncList (cwd : String) (fs : FS) : List SyncItem → List SyncResult × FS
  | [] => ([], fs)
  | item :: rest =>
    let (r, fs1) := syncItem cwd fs item
    let (rs, fs2) := syncList cwd fs1 rest
    (r :: rs, fs2)

/-- Model of `sync.SyncAll`: enumerate the manifest's sync items and sync each. -/
def SyncAll (cwd : String) (fs : FS) (pactDir home os : String) (raw : Obj) :
    List SyncResult × FS :=
  syncList cwd fs (GetSyncItems fs pactDir home os raw)

/-! ## Apply engine: tool installation (`internal/apply`) -/

/-- Model of `apply.Result`. -/
structure ApplyResult where
  Category : String := ""
  Module : String := ""
  Name : String := ""
  Success : Bool := false
  Skipped : Bool := false
  Message : String := ""
  Error : Option String := none
deriving DecidableEq, Repr

/-- The per-manager install command of `installTool`; `none` for an
unsupported package manager. -/
def installToolCmd (pm tool : String) : Option (List String) :=
  if pm = "brew" then some ["brew", "install", tool]
  else if pm = "apt" then some ["sudo", "apt", "install", "-y", tool]
  else if pm = "dnf" then some ["sudo", "dnf", "install", "-y", tool]
  else if pm = "pacman" then some ["sudo", "pacman", "-S", "--noconfirm", tool]
  else if pm = "winget" then some ["winget", "install", "--id", tool, "-e", "--silent"]
  else if pm = "scoop" then some ["scoop", "install", tool]
  else if pm = "choco" then some ["choco", "install", tool, "-y"]
  else none

/-- Model of `installTool`, with `exec.LookPath` (as `lookPath`, backing
`isToolInstalled`) and `cmd.CombinedOutput` (as `runner`; `some msg` is a
failure with that combined output) passed in as oracles.  Besides the
Result it returns the list of commands actually spawned. -/
def installTool (lookPath : String → Bool) (runner : List String → Option String)
    (pm tool : String) : ApplyResult × List (List String) :=
  let result : ApplyResult := { Category := "install", Module := "cli", Name := tool }
  if lookPath tool then
    ({ result with Success := true, Skipped := true, Message := "already installed" }, [])
  else
    match installToolCmd pm tool with
    | none => ({ result with Error := some ("unsupported package manager: " ++ pm) }, [])
    | some cmd =>
      match runner cmd with
      | some output => ({ result with Error := some output }, [cmd])
      | none => ({ result with Success := true, Message := "installed" }, [cmd])

/-! ## Merge engine (`internal/detect/shell.go`) -/

/-- Model of `PromptInfo`. -/
structure PromptInfo where
  Tool : String := ""
  Theme : String := ""
  Source : String := ""
deriving DecidableEq, Repr

/-- Model of `GitDetected`. -/
structure GitDetected where
  User : String := ""
  Email : String := ""
  DefaultBranch : String := ""
  LFS : Bool := false
deriving DecidableEq, Repr

/-- Model of `ImportSelection` (the `ConfigFiles` field only drives file copying,
which never touches the manifest tree, so it is omitted here). -/
structure ImportSelection where
  CLITools : List String := []
  CLICustom : List String := []
  ShellPrompt : Option PromptInfo := none
  ShellTools : List String := []
  Git : Option GitDetected := none
  Editor : String := ""
  LLMProviders : List String := []
  LLMRuntime : String := ""
  LLMModels : List String := []
  LLMAgents : List String := []
  Secrets : List String := []
deriving DecidableEq, Repr

/-- Model of `getOrCreateMap` under value semantics: the existing sub-map, or a
fresh empty one (the caller stores the updated map back). -/
def getOrCreateMap (parent : Obj) (key : String) : Obj :=
  match lookupKey parent key with
  | some (.obj m) => m
  | _ => []

/-- Model of `getStringSlice` (the `shell.go` helper): string elements of the list
under `key`; non-strings dropped, non-lists give the empty slice. -/
def getStringSlice (m : Obj) (key : String) : List String :=
  match lookupKey m key with
  | some (.list xs) => xs.filterMap (fun v => match v with | .str s => some s | _ => none)
  | _ => []

/-- One loop of `mergeStringSlices`: append the elements not yet in the
`seen` set, threading the set through. -/
def appendUnseen (seen : List String) : List String → List String × List String
  | [] => ([], seen)
  | s :: rest =>
    if s ∈ seen then appendUnseen seen rest
    else
      let r := appendUnseen (s :: seen) rest
      (s :: r.1, r.2)

/-- Model of `mergeStringSlices`: one `seen` set threaded through first the existing
entries, then the new ones (in Go the result is a `[]any` of exactly these
strings). -/
def mergeStringSlices (existing nw : List String) : List String :=
  let r1 := appendUnseen [] existing
  let r2 := appendUnseen r1.2 nw
  r1.1 ++ r2.1

/-- Wrap a string list back into a manifest value, as
`mergeStringSlices`'s `[]any` result does. -/
def strListVal (ss : List String) : Value :=
  .list (ss.map .str)

/-- The CLI block of `Merge`. -/
def mergeCLIStep (selection : ImportSelection) (raw : Obj) : Obj :=
  if selection.CLITools.length > 0 ∨ selection.CLICustom.length > 0 then
    let cli := getOrCreateMap raw "cli"
    let cli :=
      if selection.CLITools.length > 0 then
        setKey cli "tools" (strListVal (mergeStringSlices (getStringSlice cli "tools") selection.CLITools))
      else cli
    let cli :=
      if selection.CLICustom.length > 0 then
        setKey cli "custom" (strListVal (mergeStringSlices (getStringSlice cli "custom") selection.CLICustom))
      else cli
    setKey raw "cli" (.obj cli)
  else raw

/-- The shell block of `Merge` (the prompt map is rebuilt from scratch with
`tool` and the optional `theme`/`source` keys). -/
def mergeShellStep (selection : ImportSelection) (raw : Obj) : Obj :=
  if selection.ShellPrompt.isSome ∨ selection.ShellTools.length > 0 then
    let shell := getOrCreateMap raw "shell"
    let shell :=
      match selection.ShellPrompt with
      | some p =>
        let prompt : Obj := [("tool", .str p.Tool)]
        let prompt := if p.Theme ≠ "" then prompt ++ [("theme", .str p.Theme)] else prompt
        let prompt := if p.Source ≠ "" then prompt ++ [("source", .str p.Source)] else prompt
        setKey shell "prompt" (.obj prompt)
      | none => shell
    let shell :=
      if selection.ShellTools.length > 0 then
        setKey shell "tools" (strListVal (mergeStringSlices (getStringSlice shell "tools") selection.ShellTools))
      else shell
    setKey raw "shell" (.obj shell)
  else raw

/-- The git block of `Merge`: upsert each non-empty scalar. -/
def mergeGitStep (selection : ImportSelection) (raw : Obj) : Obj :=
  match selection.Git with
  | some g =>
    let git := getOrCreateMap raw "git"
    let git := if g.User ≠ "" then setKey git "user" (.str g.User) else git
    let git := if g.Email ≠ "" then setKey git "email" (.str g.Email) else git
    let git := if g.DefaultBranch ≠ "" then setKey git "defaultBranch" (.str g.DefaultBranch) else git
    let git := if g.LFS then setKey git "lfs" (.bool true) else git
    setKey raw "git" (.obj git)
  | none => raw

/-- The editor block of `Merge`: unconditional upsert of the default. -/
def mergeEditorStep (selection : ImportSelection) (raw : Obj) : Obj :=
  if selection.Editor ≠ "" then
    let editor := getOrCreateMap raw "editor"
    setKey raw "editor" (.obj (setKey editor "default" (.str selection.Editor)))
  else raw

/-- The LLM block of `Merge`: providers, the nested `local` map (runtime
upsert, models merged), and the nested `coding.agents` list. -/
def mergeLLMStep (selection : ImportSelection) (raw : Obj) : Obj :=
  if selection.LLMProviders.length > 0 ∨ selection.LLMRuntime ≠ "" ∨
     selection.LLMModels.length > 0 ∨ selection.LLMAgents.length > 0 then
    let llm := getOrCreateMap raw "llm"
    let llm :=
      if selection.LLMProviders.length > 0 then
        setKey llm "providers" (strListVal (mergeStringSlices (getStringSlice llm "providers") selection.LLMProviders))
      else llm
    let llm :=
      if selection.LLMRuntime ≠ "" ∨ selection.LLMModels.length > 0 then
        let loc := getOrCreateMap llm "local"
        let loc := if selection.LLMRuntime ≠ "" then setKey loc "runtime" (.str selection.LLMRuntime) else loc
        let loc :=
          if selection.LLMModels.length > 0 then
            setKey loc "models" (strListVal (mergeStringSlices (getStringSlice loc "models") selection.LLMModels))
          else loc
        setKey llm "local" (.obj loc)
      else llm
    let llm :=
      if selection.LLMAgents.length > 0 then
        let coding := getOrCreateMap llm "coding"
        setKey llm "coding" (.obj (setKey coding "agents"
          (strListVal (mergeStringSlices (getStringSlice coding "agents") selection.LLMAgents))))
      else llm
    setKey raw "llm" (.obj llm)
  else raw

/-- The secrets block of `Merge`: merge into the top-level `secrets` list. -/
def mergeSecretsStep (selection : ImportSelection) (raw : Obj) : Obj :=
  if selection.Secrets.length > 0 then
    setKey raw "secrets" (strListVal (mergeStringSlices (getStringSlice raw "secrets") selection.Secrets))
  else raw

/-- Model of `detect.Merge` on the in-memory manifest tree, block by block in source
order (file loading/saving and the per-file `CopyConfigFile` loop do not
touch the tree and are factored out). -/
def Merge (selection : ImportSelection) (raw : Obj) : Obj :=
  mergeSecretsStep selection
    (mergeLLMStep selection
      (mergeEditorStep selection
        (mergeGitStep selection
          (mergeShellStep selection
            (mergeCLIStep selection raw)))))

/-! ## Diff engine (`internal/detect/diff.go`) -/

/-- Model of `DiffItem` (`Value` is `any` in Go; absent values are `none`; the Go
field `Type` is spelled `Ty` here because `Type` is reserved in Lean). -/
structure DiffItem where
  Name : String
  Ty : String
  Value : Option Value := none

/-- Model of `DiffResult`. -/
structure DiffResult where
  Module : String
  LocalOnly : List DiffItem := []
  PactOnly : List DiffItem := []
  Synced : List DiffItem := []

/-- Model of `EditorDetected`. -/
structure EditorDetected where
  Default : String := ""
  Others : List String := []
deriving DecidableEq, Repr

/-- Model of `LocalLLM`. -/
structure LocalLLM where
  Runtime : String := ""
  Models : List String := []
deriving DecidableEq, Repr

/-- Model of `CodingLLM`. -/
structure CodingLLM where
  Agents : List String := []
deriving DecidableEq, Repr

/-- Model of `LLMDetected`. -/
structure LLMDetected where
  Providers : List String := []
  Local : Option LocalLLM := none
  Coding : Option CodingLLM := none
deriving DecidableEq, Repr

/-- Model of `toSet` membership: `toSet(xs)[x]` in Go is exactly list membership. -/
def inSet (xs : List String) (x : String) : Bool :=
  xs.contains x

/-- Model of `compareEditor`: the chain of appends in source order.  Note that when
both defaults are non-empty and different only the detected one is emitted
(as LocalOnly); the manifest default reaches no list, and an `Others` entry
equal to the manifest default is skipped. -/
def compareEditor (detected : EditorDetected) (cfg : Obj) : DiffResult :=
  let pactDefault := GetString cfg "editor.default"
  let result : DiffResult := { Module := "editor" }
  let result :=
    if detected.Default ≠ "" then
      if detected.Default = pactDefault then
        { result with Synced := result.Synced ++ [{ Name := detected.Default, Ty := "editor" }] }
      else if pactDefault = "" then
        { result with LocalOnly := result.LocalOnly ++ [{ Name := detected.Default, Ty := "editor" }] }
      else
        { result with LocalOnly := result.LocalOnly ++ [{ Name := detected.Default, Ty := "editor" }] }
    else if pactDefault ≠ "" then
      { result with PactOnly := result.PactOnly ++ [{ Name := pactDefault, Ty := "editor" }] }
    else result
  detected.Others.foldl
    (fun r editor =>
      if editor ≠ pactDefault then
        { r with LocalOnly := r.LocalOnly ++ [{ Name := editor, Ty := "editor-other" }] }
      else r)
    result

/-- Model of `compareLLM`: providers both ways; the `local` runtime is emitted only
as Synced (equal) or LocalOnly (manifest runtime empty) — never PactOnly —
and models/agents are only checked from the detected side. -/
def compareLLM (detected : LLMDetected) (cfg : Obj) : DiffResult :=
  let pactProviders := GetStringSlice cfg "llm.providers"
  let result : DiffResult := { Module := "llm" }
  let result := detected.Providers.foldl
    (fun r provider =>
      if inSet pactProviders provider then
        { r with Synced := r.Synced ++ [{ Name := provider, Ty := "provider" }] }
      else
        { r with LocalOnly := r.LocalOnly ++ [{ Name := provider, Ty := "provider" }] })
    result
  let result := pactProviders.foldl
    (fun r provider =>
      if !inSet detected.Providers provider then
        { r with PactOnly := r.PactOnly ++ [{ Name := provider, Ty := "provider" }] }
      else r)
    result
  let result :=
    match detected.Local with
    | some loc =>
      let pactRuntime := GetString cfg "llm.local.runtime"
      let pactModels := GetStringSlice cfg "llm.local.models"
      let r :=
        if loc.Runtime = pactRuntime then
          { result with Synced := result.Synced ++ [{ Name := loc.Runtime, Ty := "runtime" }] }
        else if pactRuntime = "" then
          { result with LocalOnly := result.LocalOnly ++ [{ Name := loc.Runtime, Ty := "runtime" }] }
        else result
      loc.Models.foldl
        (fun r model =>
          if inSet pactModels model then
            { r with Synced := r.Synced ++ [{ Name := model, Ty := "model" }] }
          else
            { r with LocalOnly := r.LocalOnly ++ [{ Name := model, Ty := "model" }] })
        r
    | none => result
  match detected.Coding with
  | some coding =>
    let pactAgents := GetStringSlice cfg "llm.coding.agents"
    coding.Agents.foldl
      (fun r agent =>
        if inSet pactAgents agent then
          { r with Synced := r.Synced ++ [{ Name := agent, Ty := "agent" }] }
        else
          { r with LocalOnly := r.LocalOnly ++ [{ Name := agent, Ty := "agent" }] })
      result
  | none => result

/-- The (name, type) pairs of a diff list. -/
def pairsOf (items : List DiffItem) : List (String × String) :=
  items.map (fun i => (i.Name, i.Ty))

/-- How many of the three lists of a `DiffResult` contain a given
(name, type) pair. -/
def listCount (result : DiffResult) (name ty : String) : Nat :=
  (if (name, ty) ∈ pairsOf result.Synced then 1 else 0) +
  (if (name, ty) ∈ pairsOf result.LocalOnly then 1 else 0) +
  (if (name, ty) ∈ pairsOf result.PactOnly then 1 else 0)

/-- A stored value that is a list of strings without duplicates. -/
def nodupStrList (v : Option Value) : Prop :=
  ∃ ss : List String, v = some (strListVal ss) ∧ ss.Nodup

/-! ## Association-list lemmas -/

theorem lookupKey_setKey_self (m : Obj) (k : String) (v : Value) :
    lookupKey (setKey m k v) k = some v := by
  induction m with
  | nil => simp [setKey, lookupKey]
  | cons e rest ih =>
    obtain ⟨k1, v1⟩ := e
    by_cases h : k1 = k
    · simp [setKey, h, lookupKey]
    · simp [setKey, h, lookupKey, ih]

theorem lookupKey_setKey_ne (m : Obj) (k j : String) (v : Value) (h : j ≠ k) :
    lookupKey (setKey m k v) j = lookupKey m j := by
  have hkj : k ≠ j := fun hh => h hh.symm
  induction m with
  | nil => simp [setKey, lookupKey, hkj]
  | cons e rest ih =>
    obtain ⟨k1, v1⟩ := e
    by_cases h1 : k1 = k
    · subst h1
      simp [setKey, lookupKey, hkj]
    · simp [setKey, h1, lookupKey, ih]

/-! ## `mergeStringSlices` lemmas -/

theorem appendUnseen_snd_mem (xs : List String) (seen : List String) (a : String) :
    a ∈ (appendUnseen seen xs).2 ↔ a ∈ seen ∨ a ∈ xs := by
  induction xs generalizing seen with
  | nil => simp [appendUnseen]
  | cons s rest ih =>
    by_cases h : s ∈ seen
    · rw [show appendUnseen seen (s :: rest) = appendUnseen seen rest by simp [appendUnseen, h]]
      rw [ih]
      constructor
      · rintro (ha | ha)
        · exact Or.inl ha
        · exact Or.inr (List.mem_cons_of_mem _ ha)
      · rintro (ha | ha)
        · exact Or.inl ha
        · rcases List.mem_cons.mp ha with ha | ha
          · exact Or.inl (ha ▸ h)
          · exact Or.inr ha
    · rw [show (appendUnseen seen (s :: rest)).2 = (appendUnseen (s :: seen) rest).2 by
        simp [appendUnseen, h]]
      rw [ih]
      simp [List.mem_cons]
      tauto

theorem appendUnseen_fst_nodup_aux (xs : List String) (seen : List String) :
    (appendUnseen seen xs).1.Nodup ∧ ∀ a ∈ (appendUnseen seen xs).1, a ∉ seen := by
  induction xs generalizing seen with
  | nil => simp [appendUnseen]
  | cons s rest ih =>
    by_cases h : s ∈ seen
    · rw [show appendUnseen seen (s :: rest) = appendUnseen seen rest by simp [appendUnseen, h]]
      exact ih seen
    · rw [show (appendUnseen seen (s :: rest)).1 = s :: (appendUnseen (s :: seen) rest).1 by
        simp [appendUnseen, h]]
      obtain ⟨hnd, hmem⟩ := ih (s :: seen)
      refine ⟨List.nodup_cons.mpr ⟨fun hs => ?_, hnd⟩, ?_⟩
      · exact hmem s hs (List.mem_cons_self s seen)
      · intro a ha
        rcases List.mem_cons.mp ha with ha | ha
        · exact ha ▸ h
        · exact fun hseen => hmem a ha (List.mem_cons_of_mem _ hseen)

theorem appendUnseen_fst_sub_snd (xs : List String) (seen : List String) (a : String)
    (ha : a ∈ (appendUnseen seen xs).1) : a ∈ (appendUnseen seen xs).2 := by
  induction xs generalizing seen with
  | nil => simp [appendUnseen] at ha
  | cons s rest ih =>
    by_cases h : s ∈ seen
    · rw [show appendUnseen seen (s :: rest) = appendUnseen seen rest by
        simp [appendUnseen, h]] at ha ⊢
      exact ih seen ha
    · rw [show appendUnseen seen (s :: rest) =
          (s :: (appendUnseen (s :: seen) rest).1, (appendUnseen (s :: seen) rest).2) by
        simp [appendUnseen, h]] at ha ⊢
      rcases List.mem_cons.mp ha with ha | ha
      · exact (appendUnseen_snd_mem rest (s :: seen) a).mpr
          (Or.inl (ha ▸ List.mem_cons_self s seen))
      · exact ih (s :: seen) ha

theorem appendUnseen_of_nodup_notmem (xs : List String) (seen : List String)
    (hnd : xs.Nodup) (hdisj : ∀ a ∈ xs, a ∉ seen) : (appendUnseen seen xs).1 = xs := by
  induction xs generalizing seen with
  | nil => simp [appendUnseen]
  | cons s rest ih =>
    have hs : s ∉ seen := hdisj s (List.mem_cons_self s rest)
    rw [show (appendUnseen seen (s :: rest)).1 = s :: (appendUnseen (s :: seen) rest).1 by
      simp [appendUnseen, hs]]
    obtain ⟨hhead, hrest⟩ := List.nodup_cons.mp hnd
    rw [ih (s :: seen) hrest]
    intro a ha hseen
    rcases List.mem_cons.mp hseen with hseen | hseen
    · exact hhead (hseen ▸ ha)
    · exact hdisj a (List.mem_cons_of_mem _ ha) hseen

theorem appendUnseen_of_all_mem (xs : List String) (seen : List String)
    (hall : ∀ a ∈ xs, a ∈ seen) : (appendUnseen seen xs).1 = [] := by
  induction xs generalizing seen with
  | nil => simp [appendUnseen]
  | cons s rest ih =>
    have hs : s ∈ seen := hall s (List.mem_cons_self s rest)
    rw [show appendUnseen seen (s :: rest) = appendUnseen seen rest by simp [appendUnseen, hs]]
    exact ih seen fun a ha => hall a (List.mem_cons_of_mem _ ha)

theorem mergeStringSlices_nodup (existing nw : List String) :
    (mergeStringSlices existing nw).Nodup := by
  unfold mergeStringSlices
  obtain ⟨hnd1, _⟩ := appendUnseen_fst_nodup_aux existing []
  obtain ⟨hnd2, hmem2⟩ := appendUnseen_fst_nodup_aux nw (appendUnseen [] existing).2
  exact List.Nodup.append hnd1 hnd2 fun a ha1 ha2 =>
    hmem2 a ha2 (appendUnseen_fst_sub_snd existing [] a ha1)

theorem mergeStringSlices_of_mem (existing nw : List String) (hnd : existing.Nodup)
    (hall : ∀ a ∈ nw, a ∈ existing) : mergeStringSlices existing nw = existing := by
  have h1 : (appendUnseen [] existing).1 = existing :=
    appendUnseen_of_nodup_notmem existing [] hnd (by simp)
  have h2 : (appendUnseen (appendUnseen [] existing).2 nw).1 = [] :=
    appendUnseen_of_all_mem nw _ fun a ha =>
      (appendUnseen_snd_mem existing [] a).mpr (Or.inr (hall a ha))
  show (appendUnseen [] existing).1 ++ (appendUnseen (appendUnseen [] existing).2 nw).1 = existing
  rw [h1, h2, List.append_nil]

/-! ## `Merge` step lemmas -/

theorem mergeCLIStep_lookup_ne (sel : ImportSelection) (raw : Obj) (k : String)
    (h : k ≠ "cli") : lookupKey (mergeCLIStep sel raw) k = lookupKey raw k := by
  unfold mergeCLIStep
  split
  · exact lookupKey_setKey_ne _ _ _ _ h
  · rfl

theorem mergeShellStep_lookup_ne (sel : ImportSelection) (raw : Obj) (k : String)
    (h : k ≠ "shell") : lookupKey (mergeShellStep sel raw) k = lookupKey raw k := by
  unfold mergeShellStep
  split
  · exact lookupKey_setKey_ne _ _ _ _ h
  · rfl

theorem mergeGitStep_lookup_ne (sel : ImportSelection) (raw : Obj) (k : String)
    (h : k ≠ "git") : lookupKey (mergeGitStep sel raw) k = lookupKey raw k := by
  unfold mergeGitStep
  split
  · exact lookupKey_setKey_ne _ _ _ _ h
  · rfl

theorem mergeEditorStep_lookup_ne (sel : ImportSelection) (raw : Obj) (k : String)
    (h : k ≠ "editor") : lookupKey (mergeEditorStep sel raw) k = lookupKey raw k := by
  unfold mergeEditorStep
  split
  · exact lookupKey_setKey_ne _ _ _ _ h
  · rfl

theorem mergeLLMStep_lookup_ne (sel : ImportSelection) (raw : Obj) (k : String)
    (h : k ≠ "llm") : lookupKey (mergeLLMStep sel raw) k = lookupKey raw k := by
  unfold mergeLLMStep
  split
  · exact lookupKey_setKey_ne _ _ _ _ h
  · rfl

theorem mergeSecretsStep_lookup_ne (sel : ImportSelection) (raw : Obj) (k : String)
    (h : k ≠ "secrets") : lookupKey (mergeSecretsStep sel raw) k = lookupKey raw k := by
  unfold mergeSecretsStep
  split
  · exact lookupKey_setKey_ne _ _ _ _ h
  · rfl

theorem mergeCLIStep_of_empty (sel : ImportSelection) (raw : Obj)
    (h1 : sel.CLITools = []) (h2 : sel.CLICustom = []) : mergeCLIStep sel raw = raw := by
  unfold mergeCLIStep
  rw [if_neg]
  simp [h1, h2]

theorem mergeShellStep_of_empty (sel : ImportSelection) (raw : Obj)
    (h1 : sel.ShellPrompt = none) (h2 : sel.ShellTools = []) : mergeShellStep sel raw = raw := by
  unfold mergeShellStep
  rw [if_neg]
  simp [h1, h2]

theorem mergeGitStep_of_empty (sel : ImportSelection) (raw : Obj)
    (h1 : sel.Git = none) : mergeGitStep sel raw = raw := by
  unfold mergeGitStep
  rw [h1]

theorem mergeEditorStep_of_empty (sel : ImportSelection) (raw : Obj)
    (h1 : sel.Editor = "") : mergeEditorStep sel raw = raw := by
  unfold mergeEditorStep
  rw [if_neg]
  simp [h1]

theorem mergeLLMStep_of_empty (sel : ImportSelection) (raw : Obj)
    (h1 : sel.LLMProviders = []) (h2 : sel.LLMRuntime = "") (h3 : sel.LLMModels = [])
    (h4 : sel.LLMAgents = []) : mergeLLMStep sel raw = raw := by
  unfold mergeLLMStep
  rw [if_neg]
  simp [h1, h2, h3, h4]

theorem mergeSecretsStep_of_empty (sel : ImportSelection) (raw : Obj)
    (h1 : sel.Secrets = []) : mergeSecretsStep sel raw = raw := by
  unfold mergeSecretsStep
  rw [if_neg]
  simp [h1]

theorem nodupStrList_of (v : Option Value) (e n : List String)
    (hl : v = some (strListVal (mergeStringSlices e n))) : nodupStrList v :=
  ⟨mergeStringSlices e n, hl, mergeStringSlices_nodup e n⟩

theorem mergeCLIStep_tools (sel : ImportSelection) (raw : Obj) (h : sel.CLITools ≠ []) :
    ∃ cli, lookupKey (mergeCLIStep sel raw) "cli" = some (.obj cli) ∧
      nodupStrList (lookupKey cli "tools") := by
  have hlen : sel.CLITools.length > 0 := List.length_pos.mpr h
  unfold mergeCLIStep
  rw [if_pos (Or.inl hlen)]
  simp only [if_pos hlen]
  by_cases hc : sel.CLICustom.length > 0
  · simp only [if_pos hc]
    exact ⟨_, lookupKey_setKey_self _ _ _, nodupStrList_of _ _ _
      ((lookupKey_setKey_ne _ _ _ _ (by decide)).trans (lookupKey_setKey_self _ _ _))⟩
  · simp only [if_neg hc]
    exact ⟨_, lookupKey_setKey_self _ _ _, nodupStrList_of _ _ _ (lookupKey_setKey_self _ _ _)⟩

theorem mergeCLIStep_custom (sel : ImportSelection) (raw : Obj) (h : sel.CLICustom ≠ []) :
    ∃ cli, lookupKey (mergeCLIStep sel raw) "cli" = some (.obj cli) ∧
      nodupStrList (lookupKey cli "custom") := by
  have hlen : sel.CLICustom.length > 0 := List.length_pos.mpr h
  unfold mergeCLIStep
  rw [if_pos (Or.inr hlen)]
  simp only [if_pos hlen]
  exact ⟨_, lookupKey_setKey_self _ _ _, nodupStrList_of _ _ _ (lookupKey_setKey_self _ _ _)⟩

theorem mergeShellStep_tools (sel : ImportSelection) (raw : Obj) (h : sel.ShellTools ≠ []) :
    ∃ shell, lookupKey (mergeShellStep sel raw) "shell" = some (.obj shell) ∧
      nodupStrList (lookupKey shell "tools") := by
  have hlen : sel.ShellTools.length > 0 := List.length_pos.mpr h
  unfold mergeShellStep
  rw [if_pos (Or.inr hlen)]
  simp only [if_pos hlen]
  exact ⟨_, lookupKey_setKey_self _ _ _, nodupStrList_of _ _ _ (lookupKey_setKey_self _ _ _)⟩

theorem mergeLLMStep_providers (sel : ImportSelection) (raw : Obj)
    (h : sel.LLMProviders ≠ []) :
    ∃ llm, lookupKey (mergeLLMStep sel raw) "llm" = some (.obj llm) ∧
      nodupStrList (lookupKey llm "providers") := by
  have hlen : sel.LLMProviders.length > 0 := List.length_pos.mpr h
  unfold mergeLLMStep
  rw [if_pos (Or.inl hlen)]
  simp only [if_pos hlen]
  by_cases hloc : sel.LLMRuntime ≠ "" ∨ sel.LLMModels.length > 0
  · simp only [if_pos hloc]
    by_cases ha : sel.LLMAgents.length > 0
    · simp only [if_pos ha]
      exact ⟨_, lookupKey_setKey_self _ _ _, nodupStrList_of _ _ _
        ((lookupKey_setKey_ne _ _ _ _ (by decide)).trans
          ((lookupKey_setKey_ne _ _ _ _ (by decide)).trans (lookupKey_setKey_self _ _ _)))⟩
    · simp only [if_neg ha]
      exact ⟨_, lookupKey_setKey_self _ _ _, nodupStrList_of _ _ _
        ((lookupKey_setKey_ne _ _ _ _ (by decide)).trans (lookupKey_setKey_self _ _ _))⟩
  · simp only [if_neg hloc]
    by_cases ha : sel.LLMAgents.length > 0
    · simp only [if_pos ha]
      exact ⟨_, lookupKey_setKey_self _ _ _, nodupStrList_of _ _ _
        ((lookupKey_setKey_ne _ _ _ _ (by decide)).trans (lookupKey_setKey_self _ _ _))⟩
    · simp only [if_neg ha]
      exact ⟨_, lookupKey_setKey_self _ _ _, nodupStrList_of _ _ _ (lookupKey_setKey_self _ _ _)⟩

theorem mergeLLMStep_models (sel : ImportSelection) (raw : Obj) (h : sel.LLMModels ≠ []) :
    ∃ llm loc, lookupKey (mergeLLMStep sel raw) "llm" = some (.obj llm) ∧
      lookupKey llm "local" = some (.obj loc) ∧ nodupStrList (lookupKey loc "models") := by
  have hlen : sel.LLMModels.length > 0 := List.length_pos.mpr h
  have hloc : sel.LLMRuntime ≠ "" ∨ sel.LLMModels.length > 0 := Or.inr hlen
  unfold mergeLLMStep
  rw [if_pos (Or.inr (Or.inr (Or.inl hlen)))]
  simp only [if_pos hloc, if_pos hlen]
  by_cases ha : sel.LLMAgents.length > 0
  · simp only [if_pos ha]
    exact ⟨_, _, lookupKey_setKey_self _ _ _,
      (lookupKey_setKey_ne _ _ _ _ (by decide)).trans (lookupKey_setKey_self _ _ _),
      nodupStrList_of _ _ _ (lookupKey_setKey_self _ _ _)⟩
  · simp only [if_neg ha]
    exact ⟨_, _, lookupKey_setKey_self _ _ _, lookupKey_setKey_self _ _ _,
      nodupStrList_of _ _ _ (lookupKey_setKey_self _ _ _)⟩

theorem mergeLLMStep_agents (sel : ImportSelection) (raw : Obj) (h : sel.LLMAgents ≠ []) :
    ∃ llm coding, lookupKey (mergeLLMStep sel raw) "llm" = some (.obj llm) ∧
      lookupKey llm "coding" = some (.obj coding) ∧
      nodupStrList (lookupKey coding "agents") := by
  have hlen : sel.LLMAgents.length > 0 := List.length_pos.mpr h
  unfold mergeLLMStep
  rw [if_pos (Or.inr (Or.inr (Or.inr hlen)))]
  simp only [if_pos hlen]
  exact ⟨_, _, lookupKey_setKey_self _ _ _, lookupKey_setKey_self _ _ _,
    nodupStrList_of _ _ _ (lookupKey_setKey_self _ _ _)⟩

theorem mergeSecretsStep_secrets (sel : ImportSelection) (raw : Obj)
    (h : sel.Secrets ≠ []) : nodupStrList (lookupKey (mergeSecretsStep sel raw) "secrets") := by
  have hlen : sel.Secrets.length > 0 := List.length_pos.mpr h
  unfold mergeSecretsStep
  rw [if_pos hlen]
  apply nodupStrList_of
  exact lookupKey_setKey_self _ _ _

/-! ## Claim C4 — merge dedup law -/

/-- C4 (counterexample): the claim says merging a selection whose items are
all already present in the manifest list (here `cli.tools`, a list of
strings) leaves the list's length and order unchanged.  With the
pre-existing list `["a", "a"]` and the selection `["a"]` (already present),
`Merge` rewrites `cli.tools` to `["a"]` — the length changes from 2 to 1,
because `mergeStringSlices` also deduplicates the existing entries. -/
theorem C4_counterexample :
    (∀ s ∈ ({ CLITools := ["a"] } : ImportSelection).CLITools,
      s ∈ GetStringSlice [("cli", .obj [("tools", .list [.str "a", .str "a"])])] "cli.tools") ∧
    GetStringSlice (Merge { CLITools := ["a"] }
      [("cli", .obj [("tools", .list [.str "a", .str "a"])])]) "cli.tools" = ["a"] ∧
    GetStringSlice [("cli", .obj [("tools", .list [.str "a", .str "a"])])] "cli.tools"
      = ["a", "a"] ∧
    (["a"] : List String).length ≠ (["a", "a"] : List String).length := by
  refine ⟨by decide, by decide, by decide, by decide⟩

/-- C4 (amended): provided the existing list contains no duplicate
entries, merging new entries that are all already present (by exact string
equality) leaves it unchanged; `mergeStringSlices` otherwise keeps the
existing entries first, in order, deduplicated, followed by the new entries
not already present. -/
theorem C4_amended (existing nw : List String) (hnd : existing.Nodup)
    (hall : ∀ a ∈ nw, a ∈ existing) : mergeStringSlices existing nw = existing :=
  mergeStringSlices_of_mem existing nw hnd hall

/-- C4 (witness): the amended law at a concrete input. -/
theorem C4_amended_witness : mergeStringSlices ["a", "b"] ["b", "a"] = ["a", "b"] :=
  C4_amended ["a", "b"] ["b", "a"] (by decide) (by decide)

/-! ## Claim C9 — merge frame property -/

/-- C9: `Merge` leaves every top-level key other than `cli`, `shell`,
`git`, `editor`, `llm`, `secrets` unchanged; and each of those six keys is
also left unchanged when every `ImportSelection` field feeding it is empty
(empty lists, `none` pointers, empty strings). -/
theorem C9_frame (sel : ImportSelection) (raw : Obj) :
    (∀ k, k ≠ "cli" → k ≠ "shell" → k ≠ "git" → k ≠ "editor" → k ≠ "llm" → k ≠ "secrets" →
      lookupKey (Merge sel raw) k = lookupKey raw k) ∧
    (sel.CLITools = [] → sel.CLICustom = [] →
      lookupKey (Merge sel raw) "cli" = lookupKey raw "cli") ∧
    (sel.ShellPrompt = none → sel.ShellTools = [] →
      lookupKey (Merge sel raw) "shell" = lookupKey raw "shell") ∧
    (sel.Git = none → lookupKey (Merge sel raw) "git" = lookupKey raw "git") ∧
    (sel.Editor = "" → lookupKey (Merge sel raw) "editor" = lookupKey raw "editor") ∧
    (sel.LLMProviders = [] → sel.LLMRuntime = "" → sel.LLMModels = [] → sel.LLMAgents = [] →
      lookupKey (Merge sel raw) "llm" = lookupKey raw "llm") ∧
    (sel.Secrets = [] → lookupKey (Merge sel raw) "secrets" = lookupKey raw "secrets") := by
  refine ⟨?_, ?_, ?_, ?_, ?_, ?_, ?_⟩
  · intro k h1 h2 h3 h4 h5 h6
    unfold Merge
    rw [mergeSecretsStep_lookup_ne _ _ _ h6, mergeLLMStep_lookup_ne _ _ _ h5,
      mergeEditorStep_lookup_ne _ _ _ h4, mergeGitStep_lookup_ne _ _ _ h3,
      mergeShellStep_lookup_ne _ _ _ h2, mergeCLIStep_lookup_ne _ _ _ h1]
  · intro h1 h2
    unfold Merge
    rw [mergeSecretsStep_lookup_ne _ _ _ (by decide), mergeLLMStep_lookup_ne _ _ _ (by decide),
      mergeEditorStep_lookup_ne _ _ _ (by decide), mergeGitStep_lookup_ne _ _ _ (by decide),
      mergeShellStep_lookup_ne _ _ _ (by decide), mergeCLIStep_of_empty _ _ h1 h2]
  · intro h1 h2
    unfold Merge
    rw [mergeSecretsStep_lookup_ne _ _ _ (by decide), mergeLLMStep_lookup_ne _ _ _ (by decide),
      mergeEditorStep_lookup_ne _ _ _ (by decide), mergeGitStep_lookup_ne _ _ _ (by decide),
      mergeShellStep_of_empty _ _ h1 h2, mergeCLIStep_lookup_ne _ _ _ (by decide)]
  · intro h1
    unfold Merge
    rw [mergeSecretsStep_lookup_ne _ _ _ (by decide), mergeLLMStep_lookup_ne _ _ _ (by decide),
      mergeEditorStep_lookup_ne _ _ _ (by decide), mergeGitStep_of_empty _ _ h1,
      mergeShellStep_lookup_ne _ _ _ (by decide), mergeCLIStep_lookup_ne _ _ _ (by decide)]
  · intro h1
    unfold Merge
    rw [mergeSecretsStep_lookup_ne _ _ _ (by decide), mergeLLMStep_lookup_ne _ _ _ (by decide),
      mergeEditorStep_of_empty _ _ h1, mergeGitStep_lookup_ne _ _ _ (by decide),
      mergeShellStep_lookup_ne _ _ _ (by decide), mergeCLIStep_lookup_ne _ _ _ (by decide)]
  · intro h1 h2 h3 h4
    unfold Merge
    rw [mergeSecretsStep_lookup_ne _ _ _ (by decide), mergeLLMStep_of_empty _ _ h1 h2 h3 h4,
      mergeEditorStep_lookup_ne _ _ _ (by decide), mergeGitStep_lookup_ne _ _ _ (by decide),
      mergeShellStep_lookup_ne _ _ _ (by decide), mergeCLIStep_lookup_ne _ _ _ (by decide)]
  · intro h1
    unfold Merge
    rw [mergeSecretsStep_of_empty _ _ h1, mergeLLMStep_lookup_ne _ _ _ (by decide),
      mergeEditorStep_lookup_ne _ _ _ (by decide), mergeGitStep_lookup_ne _ _ _ (by decide),
      mergeShellStep_lookup_ne _ _ _ (by decide), mergeCLIStep_lookup_ne _ _ _ (by decide)]

/-- C9 (witness): the frame property at a concrete manifest and the empty
selection. -/
theorem C9_frame_witness :
    lookupKey (Merge {} [("custom-module", .obj [("x", .str "y")]), ("git", .bool true)])
        "custom-module"
      = lookupKey [("custom-module", .obj [("x", .str "y")]), ("git", .bool true)]
        "custom-module" ∧
    lookupKey (Merge {} [("custom-module", .obj [("x", .str "y")]), ("git", .bool true)]) "git"
      = lookupKey [("custom-module", .obj [("x", .str "y")]), ("git", .bool true)] "git" := by
  have h := C9_frame {} [("custom-module", .obj [("x", .str "y")]), ("git", .bool true)]
  exact ⟨h.1 "custom-module" (by decide) (by decide) (by decide) (by decide) (by decide)
    (by decide), h.2.2.2.1 rfl⟩

/-! ## Claim C10 — post-merge duplicate freedom -/

/-- C10: every list field `Merge` writes (`cli.tools`, `cli.custom`,
`shell.tools`, `llm.providers`, `llm.local.models`, `llm.coding.agents`,
and the top-level `secrets`) holds a list of strings without duplicates
after `Merge` returns, whatever the pre-existing manifest contained
(duplicates are collapsed by `mergeStringSlices` and non-string elements
are dropped when `getStringSlice` reads the old list). -/
theorem C10_nodup (sel : ImportSelection) (raw : Obj) :
    (sel.CLITools ≠ [] → ∃ cli, lookupKey (Merge sel raw) "cli" = some (.obj cli) ∧
      nodupStrList (lookupKey cli "tools")) ∧
    (sel.CLICustom ≠ [] → ∃ cli, lookupKey (Merge sel raw) "cli" = some (.obj cli) ∧
      nodupStrList (lookupKey cli "custom")) ∧
    (sel.ShellTools ≠ [] → ∃ shell, lookupKey (Merge sel raw) "shell" = some (.obj shell) ∧
      nodupStrList (lookupKey shell "tools")) ∧
    (sel.LLMProviders ≠ [] → ∃ llm, lookupKey (Merge sel raw) "llm" = some (.obj llm) ∧
      nodupStrList (lookupKey llm "providers")) ∧
    (sel.LLMModels ≠ [] → ∃ llm loc, lookupKey (Merge sel raw) "llm" = some (.obj llm) ∧
      lookupKey llm "local" = some (.obj loc) ∧ nodupStrList (lookupKey loc "models")) ∧
    (sel.LLMAgents ≠ [] → ∃ llm coding, lookupKey (Merge sel raw) "llm" = some (.obj llm) ∧
      lookupKey llm "coding" = some (.obj coding) ∧
      nodupStrList (lookupKey coding "agents")) ∧
    (sel.Secrets ≠ [] → nodupStrList (lookupKey (Merge sel raw) "secrets")) := by
  refine ⟨?_, ?_, ?_, ?_, ?_, ?_, ?_⟩
  · intro h
    obtain ⟨cli, hcli, hnds⟩ := mergeCLIStep_tools sel raw h
    refine ⟨cli, ?_, hnds⟩
    unfold Merge
    rw [mergeSecretsStep_lookup_ne _ _ _ (by decide), mergeLLMStep_lookup_ne _ _ _ (by decide),
      mergeEditorStep_lookup_ne _ _ _ (by decide), mergeGitStep_lookup_ne _ _ _ (by decide),
      mergeShellStep_lookup_ne _ _ _ (by decide)]
    exact hcli
  · intro h
    obtain ⟨cli, hcli, hnds⟩ := mergeCLIStep_custom sel raw h
    refine ⟨cli, ?_, hnds⟩
    unfold Merge
    rw [mergeSecretsStep_lookup_ne _ _ _ (by decide), mergeLLMStep_lookup_ne _ _ _ (by decide),
      mergeEditorStep_lookup_ne _ _ _ (by decide), mergeGitStep_lookup_ne _ _ _ (by decide),
      mergeShellStep_lookup_ne _ _ _ (by decide)]
    exact hcli
  · intro h
    obtain ⟨shell, hsh, hnds⟩ := mergeShellStep_tools sel (mergeCLIStep sel raw) h
    refine ⟨shell, ?_, hnds⟩
    unfold Merge
    rw [mergeSecretsStep_lookup_ne _ _ _ (by decide), mergeLLMStep_lookup_ne _ _ _ (by decide),
      mergeEditorStep_lookup_ne _ _ _ (by decide), mergeGitStep_lookup_ne _ _ _ (by decide)]
    exact hsh
  · intro h
    obtain ⟨llm, hl, hnds⟩ :=
      mergeLLMStep_providers sel
        (mergeEditorStep sel (mergeGitStep sel (mergeShellStep sel (mergeCLIStep sel raw)))) h
    refine ⟨llm, ?_, hnds⟩
    unfold Merge
    rw [mergeSecretsStep_lookup_ne _ _ _ (by decide)]
    exact hl
  · intro h
    obtain ⟨llm, loc, hl, hloc, hnds⟩ :=
      mergeLLMStep_models sel
        (mergeEditorStep sel (mergeGitStep sel (mergeShellStep sel (mergeCLIStep sel raw)))) h
    refine ⟨llm, loc, ?_, hloc, hnds⟩
    unfold Merge
    rw [mergeSecretsStep_lookup_ne _ _ _ (by decide)]
    exact hl
  · intro h
    obtain ⟨llm, coding, hl, hcod, hnds⟩ :=
      mergeLLMStep_agents sel
        (mergeEditorStep sel (mergeGitStep sel (mergeShellStep sel (mergeCLIStep sel raw)))) h
    refine ⟨llm, coding, ?_, hcod, hnds⟩
    unfold Merge
    rw [mergeSecretsStep_lookup_ne _ _ _ (by decide)]
    exact hl
  · intro h
    exact mergeSecretsStep_secrets sel _ h

/-- C10 (witness): duplicate freedom at a concrete selection and a manifest
whose pre-existing lists contain duplicates and non-string elements. -/
theorem C10_nodup_witness :
    (∃ cli, lookupKey (Merge
        { CLITools := ["rg"], CLICustom := ["lazygit"], ShellTools := ["fzf"],
          LLMProviders := ["openai"], LLMModels := ["m1"], LLMAgents := ["aider"],
          Secrets := ["S1"] }
        [("cli", .obj [("tools", .list [.str "rg", .str "rg", .num 3])])]) "cli"
        = some (.obj cli) ∧ nodupStrList (lookupKey cli "tools")) ∧
    nodupStrList (lookupKey (Merge
        { CLITools := ["rg"], CLICustom := ["lazygit"], ShellTools := ["fzf"],
          LLMProviders := ["openai"], LLMModels := ["m1"], LLMAgents := ["aider"],
          Secrets := ["S1"] }
        [("cli", .obj [("tools", .list [.str "rg", .str "rg", .num 3])])]) "secrets") := by
  have h := C10_nodup
    { CLITools := ["rg"], CLICustom := ["lazygit"], ShellTools := ["fzf"],
      LLMProviders := ["openai"], LLMModels := ["m1"], LLMAgents := ["aider"],
      Secrets := ["S1"] }
    [("cli", .obj [("tools", .list [.str "rg", .str "rg", .num 3])])]
  exact ⟨h.1 (by decide), h.2.2.2.2.2.2 (by decide)⟩

/-! ## Filesystem lemmas -/

theorem lookupFS_append (l m : FS) (p : String) :
    lookupFS (l ++ m) p =
      match lookupFS l p with
      | some n => some n
      | none => lookupFS m p := by
  induction l with
  | nil => simp [lookupFS]
  | cons e rest ih =>
    obtain ⟨q, n⟩ := e
    by_cases h : q = p
    · simp [lookupFS, h]
    · simp [lookupFS, h, ih]

theorem lookupFS_append_none (l m : FS) (p : String) (h : lookupFS l p = none) :
    lookupFS (l ++ m) p = lookupFS m p := by
  rw [lookupFS_append, h]

theorem lookupFS_append_some (l m : FS) (p : String) (n : FSNode)
    (h : lookupFS l p = some n) : lookupFS (l ++ m) p = some n := by
  rw [lookupFS_append, h]

theorem lookupFS_mem (fs : FS) (p : String) (n : FSNode) (h : lookupFS fs p = some n) :
    (p, n) ∈ fs := by
  induction fs with
  | nil => simp [lookupFS] at h
  | cons e rest ih =>
    obtain ⟨q, m⟩ := e
    by_cases hq : q = p
    · subst hq
      rw [lookupFS, if_pos rfl] at h
      exact Option.some_injective _ h ▸ List.mem_cons_self _ _
    · rw [lookupFS, if_neg hq] at h
      exact List.mem_cons_of_mem _ (ih h)

theorem mkdir_foldl_lookup (qs : List String) (fs : FS) (q : String) (hq : q ∉ qs) :
    lookupFS (qs.foldl
      (fun acc r => if (lookupFS acc r).isSome then acc else acc ++ [(r, FSNode.dir)]) fs) q
      = lookupFS fs q := by
  induction qs generalizing fs with
  | nil => rfl
  | cons r rest ih =>
    have hqr : q ≠ r := fun hh => hq (hh ▸ List.mem_cons_self r rest)
    have hq1 : q ∉ rest := fun hh => hq (List.mem_cons_of_mem _ hh)
    rw [List.foldl_cons, ih _ hq1]
    by_cases hr : (lookupFS fs r).isSome
    · rw [if_pos hr]
    · rw [if_neg hr, lookupFS_append]
      rw [show lookupFS [(r, FSNode.dir)] q = none by
        rw [lookupFS, if_neg fun hh => hqr hh.symm, lookupFS]]
      cases hfs : lookupFS fs q <;> rfl

theorem mkdirAll_lookup_not_mem (p : String) (fs fs1 : FS) (q : String)
    (hmk : mkdirAll p fs = some fs1) (hq : q ∉ prefixPaths p) :
    lookupFS fs1 q = lookupFS fs q := by
  unfold mkdirAll at hmk
  split at hmk
  · cases hmk
    exact mkdir_foldl_lookup _ fs q hq
  · exact absurd hmk (by simp)

theorem mkdir_foldl_of_found (qs : List String) (fs : FS)
    (h : ∀ q ∈ qs, (lookupFS fs q).isSome) :
    qs.foldl (fun acc r => if (lookupFS acc r).isSome then acc else acc ++ [(r, FSNode.dir)]) fs
      = fs := by
  induction qs with
  | nil => rfl
  | cons r rest ih =>
    rw [List.foldl_cons, if_pos (h r (List.mem_cons_self r rest))]
    exact ih fun q hq => h q (List.mem_cons_of_mem _ hq)

theorem mkdirAll_of_dirs (p : String) (fs : FS)
    (hdirs : ∀ q ∈ prefixPaths p, lookupFS fs q = some FSNode.dir) :
    mkdirAll p fs = some fs := by
  have hall : ∀ q ∈ prefixPaths p, (lookupFS fs q).isSome := by
    intro q hq
    rw [hdirs q hq]
    rfl
  unfold mkdirAll
  split
  · rw [mkdir_foldl_of_found _ _ hall]
  · rename_i hcond
    exfalso
    apply hcond
    rw [List.all_eq_true]
    intro q hq
    rw [hdirs q hq]

theorem lookupFS_removeAll (p q : String) (fs : FS) :
    lookupFS (removeAll p fs) q =
      if q = p ∨ strStartsWith q (p ++ "/") = true then none else lookupFS fs q := by
  induction fs with
  | nil =>
    rw [removeAll]
    simp [lookupFS]
  | cons e rest ih =>
    obtain ⟨r, n⟩ := e
    rw [removeAll] at ih
    rw [removeAll, List.filter_cons]
    by_cases h1 : r = p
    · rw [show (!(decide ((r, n).1 = p) || strStartsWith (r, n).1 (p ++ "/"))) = false by
        simp [h1]]
      rw [if_neg (by decide), ih]
      by_cases h3 : q = p ∨ strStartsWith q (p ++ "/") = true
      · rw [if_pos h3, if_pos h3]
      · rw [if_neg h3, if_neg h3, lookupFS,
          if_neg fun hh => h3 (Or.inl (hh.symm.trans h1))]
    · by_cases h2 : strStartsWith r (p ++ "/") = true
      · rw [show (!(decide ((r, n).1 = p) || strStartsWith (r, n).1 (p ++ "/"))) = false by
          simp [h2]]
        rw [if_neg (by decide), ih]
        by_cases h3 : q = p ∨ strStartsWith q (p ++ "/") = true
        · rw [if_pos h3, if_pos h3]
        · rw [if_neg h3, if_neg h3, lookupFS, if_neg fun (hh : r = q) => h3 (Or.inr (hh ▸ h2))]
      · rw [show (!(decide ((r, n).1 = p) || strStartsWith (r, n).1 (p ++ "/"))) = true by
          simp [h1, h2]]
        rw [if_pos rfl]
        by_cases h3 : r = q
        · subst h3
          rw [lookupFS, if_pos rfl,
            if_neg (by rintro (hh | hh); exacts [h1 hh, h2 hh]), lookupFS, if_pos rfl]
        · rw [lookupFS, if_neg h3, ih, lookupFS, if_neg h3]

/-! ## Sync-engine result lemmas -/

theorem syncItem_Module (cwd : String) (fs : FS) (item : SyncItem) :
    (syncItem cwd fs item).1.Module = item.Module := by
  simp only [syncItem]
  repeat' split
  all_goals rfl

theorem syncItem_Name (cwd : String) (fs : FS) (item : SyncItem) :
    (syncItem cwd fs item).1.Name = item.Name := by
  simp only [syncItem]
  repeat' split
  all_goals rfl

theorem syncItem_bad_strategy (cwd : String) (fs : FS) (item : SyncItem)
    (h1 : item.Strategy ≠ "") (h2 : item.Strategy ≠ "symlink") (h3 : item.Strategy ≠ "copy") :
    (syncItem cwd fs item).1.Error ≠ none := by
  simp only [syncItem, h1, h2, h3, if_false, ite_false]
  repeat' split
  all_goals simp

theorem syncList_length (cwd : String) (fs : FS) (items : List SyncItem) :
    (syncList cwd fs items).1.length = items.length := by
  induction items generalizing fs with
  | nil => rfl
  | cons item rest ih =>
    rw [syncList]
    simp [ih]

theorem syncList_get (cwd : String) (fs : FS) (items : List SyncItem) (i : Nat)
    (hi : i < items.length) (hr : i < (syncList cwd fs items).1.length) :
    ((syncList cwd fs items).1.get ⟨i, hr⟩).Module = (items.get ⟨i, hi⟩).Module ∧
    ((syncList cwd fs items).1.get ⟨i, hr⟩).Name = (items.get ⟨i, hi⟩).Name ∧
    ((items.get ⟨i, hi⟩).Strategy ≠ "" → (items.get ⟨i, hi⟩).Strategy ≠ "symlink" →
      (items.get ⟨i, hi⟩).Strategy ≠ "copy" →
      ((syncList cwd fs items).1.get ⟨i, hr⟩).Error ≠ none) := by
  induction items generalizing fs i with
  | nil => exact absurd hi (by simp)
  | cons item rest ih =>
    cases i with
    | zero =>
      exact ⟨syncItem_Module cwd fs item, syncItem_Name cwd fs item,
        syncItem_bad_strategy cwd fs item⟩
    | succ j =>
      have hj : j < rest.length := Nat.lt_of_succ_lt_succ hi
      have hjr : j < (syncList cwd (syncItem cwd fs item).2 rest).1.length := by
        rw [syncList_length]
        exact hj
      exact ih (syncItem cwd fs item).2 j hj hjr

/-! ## Claim C5 — per-item failure isolation -/

/-- C5: the sync loop returns exactly one Result per item, carrying that
item's module and name, and an unknown strategy value yields an error
Result for that item only — later items are still processed, the batch is
never cut short. -/
theorem C5_isolation (cwd : String) (fs : FS) (items : List SyncItem) :
    (syncList cwd fs items).1.length = items.length ∧
    ∀ (i : Nat) (hi : i < items.length) (hr : i < (syncList cwd fs items).1.length),
      ((syncList cwd fs items).1.get ⟨i, hr⟩).Module = (items.get ⟨i, hi⟩).Module ∧
      ((syncList cwd fs items).1.get ⟨i, hr⟩).Name = (items.get ⟨i, hi⟩).Name ∧
      ((items.get ⟨i, hi⟩).Strategy ≠ "" → (items.get ⟨i, hi⟩).Strategy ≠ "symlink" →
        (items.get ⟨i, hi⟩).Strategy ≠ "copy" →
        ((syncList cwd fs items).1.get ⟨i, hr⟩).Error ≠ none) :=
  ⟨syncList_length cwd fs items, fun i hi hr => syncList_get cwd fs items i hi hr⟩

/-- C5 (witness): a batch whose middle item has an unknown strategy still
produces three Results, and the middle one carries the error. -/
theorem C5_witness :
    (syncList "/cw" [("/pd", FSNode.dir), ("/pd/z", FSNode.file), ("/h", FSNode.dir)]
        [⟨"shell", "a", "/pd/z", "/h/a", "", false⟩,
         ⟨"shell", "b", "/pd/z", "/h/b", "hardlink", false⟩,
         ⟨"shell", "c", "/pd/z", "/h/c", "symlink", false⟩]).1.length = 3 ∧
    ((syncList "/cw" [("/pd", FSNode.dir), ("/pd/z", FSNode.file), ("/h", FSNode.dir)]
        [⟨"shell", "a", "/pd/z", "/h/a", "", false⟩,
         ⟨"shell", "b", "/pd/z", "/h/b", "hardlink", false⟩,
         ⟨"shell", "c", "/pd/z", "/h/c", "symlink", false⟩]).1.get
      ⟨1, by decide⟩).Error ≠ none := by
  have h := C5_isolation "/cw" [("/pd", FSNode.dir), ("/pd/z", FSNode.file), ("/h", FSNode.dir)]
    [⟨"shell", "a", "/pd/z", "/h/a", "", false⟩,
     ⟨"shell", "b", "/pd/z", "/h/b", "hardlink", false⟩,
     ⟨"shell", "c", "/pd/z", "/h/c", "symlink", false⟩]
  exact ⟨h.1, (h.2 1 (by decide) (by decide)).2.2 (by decide) (by decide) (by decide)⟩

/-! ## Claim C3 — symlink strategy correctness (Scenario B) -/

/-- C3: for an item whose source stats successfully, whose strategy is
`symlink` (or empty, defaulting to `symlink`), and whose target does not
exist — with the target's parent directory creatable and the target not
itself one of the parent prefixes — `syncItem` creates at the target a
symbolic link whose value is the absolute source path and reports success
with no error. -/
theorem C3_symlink_scenario (cwd : String) (fs : FS) (item : SyncItem)
    (hsrc : (statFS fs item.Source).isSome = true)
    (hstrat : item.Strategy = "" ∨ item.Strategy = "symlink")
    (htgt : lookupFS fs item.Target = none)
    (hmk : (mkdirAll (dirOf item.Target) fs).isSome = true)
    (hself : item.Target ∉ prefixPaths (dirOf item.Target)) :
    (syncItem cwd fs item).1.Success = true ∧
    (syncItem cwd fs item).1.Error = none ∧
    lookupFS (syncItem cwd fs item).2 item.Target
      = some (FSNode.symlink (absPath cwd item.Source)) := by
  obtain ⟨node, hnode⟩ := Option.isSome_iff_exists.mp hsrc
  obtain ⟨fs1, hfs1⟩ := Option.isSome_iff_exists.mp hmk
  have hstr : (if item.Strategy = "" then "symlink" else item.Strategy) = "symlink" := by
    rcases hstrat with h | h
    · rw [if_pos h]
    · rw [h, ite_self]
  have htgt1 : lookupFS fs1 item.Target = none :=
    (mkdirAll_lookup_not_mem _ fs fs1 item.Target hfs1 hself).trans htgt
  simp only [syncItem, hnode, hstr, hfs1, htgt1, createSymlink, symlinkFS,
    Option.isSome_none, Bool.false_eq_true, if_false, ite_false, if_pos rfl, if_true, ite_true]
  refine ⟨by simp, by simp, ?_⟩
  rw [lookupFS_append_none _ _ _ htgt1, lookupFS, if_pos rfl]

/-- C3 (witness): Scenario B at a concrete filesystem. -/
theorem C3_witness :
    (syncItem "/cw" [("/pd", FSNode.dir), ("/pd/z", FSNode.file), ("/h", FSNode.dir),
        ("/h/u", FSNode.dir)]
      ⟨"shell", "zshrc", "/pd/z", "/h/u/z", "symlink", false⟩).1.Success = true ∧
    (syncItem "/cw" [("/pd", FSNode.dir), ("/pd/z", FSNode.file), ("/h", FSNode.dir),
        ("/h/u", FSNode.dir)]
      ⟨"shell", "zshrc", "/pd/z", "/h/u/z", "symlink", false⟩).1.Error = none ∧
    lookupFS (syncItem "/cw" [("/pd", FSNode.dir), ("/pd/z", FSNode.file), ("/h", FSNode.dir),
        ("/h/u", FSNode.dir)]
      ⟨"shell", "zshrc", "/pd/z", "/h/u/z", "symlink", false⟩).2 "/h/u/z"
      = some (FSNode.symlink (absPath "/cw" "/pd/z")) :=
  C3_symlink_scenario "/cw"
    [("/pd", FSNode.dir), ("/pd/z", FSNode.file), ("/h", FSNode.dir), ("/h/u", FSNode.dir)]
    ⟨"shell", "zshrc", "/pd/z", "/h/u/z", "symlink", false⟩
    (by decide) (Or.inr rfl) (by decide) (by decide) (by decide)

/-! ## Claim C2 — idempotence of a second pass -/

/-- C2 (counterexample): with a source file, intact parent directories and
a target that is already the correct symlink (exactly the state a
successful first run leaves), a first `syncItem` run succeeds, and a
second run still succeeds — but reports `Skipped = false`, not
`Skipped = true` as the claim requires: the file sync engine removes and
re-creates the link instead of skipping. -/
theorem C2_counterexample :
    ((syncItem "/cw" [("/pd", FSNode.dir), ("/pd/z", FSNode.file), ("/h", FSNode.dir),
        ("/h/u", FSNode.dir)]
      ⟨"shell", "zshrc", "/pd/z", "/h/u/z", "symlink", false⟩).1.Success = true) ∧
    ((syncItem "/cw"
        ((syncItem "/cw" [("/pd", FSNode.dir), ("/pd/z", FSNode.file), ("/h", FSNode.dir),
            ("/h/u", FSNode.dir)]
          ⟨"shell", "zshrc", "/pd/z", "/h/u/z", "symlink", false⟩).2)
        ⟨"shell", "zshrc", "/pd/z", "/h/u/z", "symlink", false⟩).1.Success = true) ∧
    ((syncItem "/cw"
        ((syncItem "/cw" [("/pd", FSNode.dir), ("/pd/z", FSNode.file), ("/h", FSNode.dir),
            ("/h/u", FSNode.dir)]
          ⟨"shell", "zshrc", "/pd/z", "/h/u/z", "symlink", false⟩).2)
        ⟨"shell", "zshrc", "/pd/z", "/h/u/z", "symlink", false⟩).1.Skipped = false) := by
  refine ⟨by decide, by decide, by decide⟩

/-- C2 (amended): with no external state change, a second pass is
idempotent in effect but not in reporting: `installTool` on a tool already
on PATH reports `skipped = true` and spawns nothing, while `syncItem` on a
target that is already the correct symlink (source still present, parent
directories intact, nothing recorded below the target) succeeds again with
`skipped = false` and leaves the filesystem state unchanged at every
path. -/
theorem C2_amended (cwd : String) (fs : FS) (item : SyncItem)
    (lookPath : String → Bool) (runner : List String → Option String) (pm tool : String)
    (htool : lookPath tool = true)
    (hsrc : (statFS fs item.Source).isSome = true)
    (hstrat : item.Strategy = "" ∨ item.Strategy = "symlink")
    (htgt : lookupFS fs item.Target = some (FSNode.symlink (absPath cwd item.Source)))
    (hdirs : ∀ q ∈ prefixPaths (dirOf item.Target), lookupFS fs q = some FSNode.dir)
    (hnodesc : ∀ e ∈ fs, strStartsWith e.1 (item.Target ++ "/") = false) :
    (syncItem cwd fs item).1.Success = true ∧
    (syncItem cwd fs item).1.Skipped = false ∧
    (syncItem cwd fs item).1.Error = none ∧
    (∀ p, lookupFS (syncItem cwd fs item).2 p = lookupFS fs p) ∧
    (installTool lookPath runner pm tool).1.Skipped = true ∧
    (installTool lookPath runner pm tool).1.Success = true ∧
    (installTool lookPath runner pm tool).2 = [] := by
  obtain ⟨node, hnode⟩ := Option.isSome_iff_exists.mp hsrc
  have hstr : (if item.Strategy = "" then "symlink" else item.Strategy) = "symlink" := by
    rcases hstrat with h | h
    · rw [if_pos h]
    · rw [h, ite_self]
  have hmk : mkdirAll (dirOf item.Target) fs = some fs := mkdirAll_of_dirs _ fs hdirs
  have htgt2 : lookupFS (removeAll item.Target fs) item.Target = none := by
    rw [lookupFS_removeAll, if_pos (Or.inl rfl)]
  have hrm : ∀ p, lookupFS (removeAll item.Target fs) p =
      if p = item.Target ∨ strStartsWith p (item.Target ++ "/") = true then none
      else lookupFS fs p := fun p => lookupFS_removeAll item.Target p fs
  simp only [syncItem, hnode, hstr, hmk, htgt, Option.isSome_some, if_true, ite_true,
    createSymlink, symlinkFS, htgt2, Option.isSome_none, Bool.false_eq_true, if_false,
    ite_false, if_pos rfl]
  refine ⟨by simp, by simp, by simp, ?_, ?_, ?_, ?_⟩
  · intro p
    by_cases hp : p = item.Target
    · subst hp
      rw [lookupFS_append_none _ _ _ htgt2, lookupFS, if_pos rfl, htgt]
    · by_cases hpre : strStartsWith p (item.Target ++ "/") = true
      · rw [lookupFS_append_none _ _ _ (by rw [hrm p, if_pos (Or.inr hpre)]),
          lookupFS, if_neg fun hh => hp hh.symm, lookupFS]
        rcases hfsp : lookupFS fs p with _ | n
        · rfl
        · have h1 := hnodesc _ (lookupFS_mem fs p n hfsp)
          rw [hpre] at h1
          exact absurd h1 (by decide)
      · have hrm2 : lookupFS (removeAll item.Target fs) p = lookupFS fs p := by
          rw [hrm p, if_neg (by rintro (hh | hh); exacts [hp hh, hpre hh])]
        rcases hfsp : lookupFS fs p with _ | n
        · rw [lookupFS_append_none _ _ _ (hrm2.trans hfsp), lookupFS,
            if_neg fun hh => hp hh.symm, lookupFS]
        · rw [lookupFS_append_some _ _ _ _ (hrm2.trans hfsp)]
  · simp [installTool, htool]
  · simp [installTool, htool]
  · simp [installTool, htool]

/-- C2 (witness): the amended statement at the concrete state left by a
first successful symlink run, with `ripgrep` already on PATH. -/
theorem C2_amended_witness :
    (syncItem "/cw" [("/pd", FSNode.dir), ("/pd/z", FSNode.file), ("/h", FSNode.dir),
        ("/h/u", FSNode.dir), ("/h/u/z", FSNode.symlink "/pd/z")]
      ⟨"shell", "zshrc", "/pd/z", "/h/u/z", "symlink", false⟩).1.Success = true ∧
    (syncItem "/cw" [("/pd", FSNode.dir), ("/pd/z", FSNode.file), ("/h", FSNode.dir),
        ("/h/u", FSNode.dir), ("/h/u/z", FSNode.symlink "/pd/z")]
      ⟨"shell", "zshrc", "/pd/z", "/h/u/z", "symlink", false⟩).1.Skipped = false ∧
    lookupFS (syncItem "/cw" [("/pd", FSNode.dir), ("/pd/z", FSNode.file), ("/h", FSNode.dir),
        ("/h/u", FSNode.dir), ("/h/u/z", FSNode.symlink "/pd/z")]
      ⟨"shell", "zshrc", "/pd/z", "/h/u/z", "symlink", false⟩).2 "/h/u/z"
      = lookupFS [("/pd", FSNode.dir), ("/pd/z", FSNode.file), ("/h", FSNode.dir),
        ("/h/u", FSNode.dir), ("/h/u/z", FSNode.symlink "/pd/z")] "/h/u/z" ∧
    (installTool (fun t => t == "ripgrep") (fun _ => none) "brew" "ripgrep").1.Skipped
      = true := by
  have h := C2_amended "/cw"
    [("/pd", FSNode.dir), ("/pd/z", FSNode.file), ("/h", FSNode.dir),
     ("/h/u", FSNode.dir), ("/h/u/z", FSNode.symlink "/pd/z")]
    ⟨"shell", "zshrc", "/pd/z", "/h/u/z", "symlink", false⟩
    (fun t => t == "ripgrep") (fun _ => none) "brew" "ripgrep"
    (by decide) (by decide) (Or.inr rfl) (by decide) (by decide) (by decide)
  exact ⟨h.1, h.2.1, h.2.2.2.1 "/h/u/z", h.2.2.2.2.1⟩

/-! ## Claim C7 — deterministic enumeration and result ordering -/

/-- C7 (counterexample): the Go manifest tree stores `files` in a
`map[string]any`, whose iteration order is not determined by the map's
contents (Go randomises it per iteration).  The two association lists
below are permutations of each other with the same (duplicate-free) keys —
the same Go map, iterated in its two possible orders — yet they enumerate
to different `SyncItem` sequences, so a fixed manifest and filesystem do
not fix the order of `GetSyncItems`. -/
theorem C7_counterexample :
    List.Perm
      [("a", Value.obj [("source", Value.str "sa"), ("target", Value.str "/ta")]),
       ("b", Value.obj [("source", Value.str "sb"), ("target", Value.str "/tb")])]
      [("b", Value.obj [("source", Value.str "sb"), ("target", Value.str "/tb")]),
       ("a", Value.obj [("source", Value.str "sa"), ("target", Value.str "/ta")])] ∧
    (([("a", Value.obj [("source", Value.str "sa"), ("target", Value.str "/ta")]),
       ("b", Value.obj [("source", Value.str "sb"), ("target", Value.str "/tb")])] : Obj).map
        Prod.fst).Nodup ∧
    GetSyncItems [] "/pd" "/h" "linux"
        [("shell", .obj [("files", .obj
          [("a", .obj [("source", .str "sa"), ("target", .str "/ta")]),
           ("b", .obj [("source", .str "sb"), ("target", .str "/tb")])])])]
      ≠ GetSyncItems [] "/pd" "/h" "linux"
        [("shell", .obj [("files", .obj
          [("b", .obj [("source", .str "sb"), ("target", .str "/tb")]),
           ("a", .obj [("source", .str "sa"), ("target", .str "/ta")])])])] := by
  refine ⟨List.Perm.swap _ _ _, by decide, by decide⟩

/-- C7 (amended): for a fixed manifest tree representation — which fixes
the otherwise unspecified map iteration order — and a fixed filesystem,
the enumeration is a pure function, and `SyncAll` emits exactly one Result
per enumerated item, in enumeration order, each carrying its item's module
and name. -/
theorem C7_amended (cwd : String) (fs : FS) (pactDir home os : String) (raw : Obj) :
    (SyncAll cwd fs pactDir home os raw).1.length
      = (GetSyncItems fs pactDir home os raw).length ∧
    ∀ (i : Nat) (hi : i < (GetSyncItems fs pactDir home os raw).length)
      (hr : i < (SyncAll cwd fs pactDir home os raw).1.length),
      ((SyncAll cwd fs pactDir home os raw).1.get ⟨i, hr⟩).Module
        = ((GetSyncItems fs pactDir home os raw).get ⟨i, hi⟩).Module ∧
      ((SyncAll cwd fs pactDir home os raw).1.get ⟨i, hr⟩).Name
        = ((GetSyncItems fs pactDir home os raw).get ⟨i, hi⟩).Name := by
  unfold SyncAll
  refine ⟨syncList_length _ _ _, fun i hi hr => ?_⟩
  obtain ⟨h1, h2, _⟩ := syncList_get cwd fs (GetSyncItems fs pactDir home os raw) i hi hr
  exact ⟨h1, h2⟩

/-- C7 (witness): the amended ordering facts at a concrete manifest. -/
theorem C7_amended_witness :
    (SyncAll "/cw" [] "/pd" "/h" "linux"
        [("shell", .obj [("files", .obj
          [("a", .obj [("source", .str "sa"), ("target", .str "/ta")])])])]).1.length
      = (GetSyncItems [] "/pd" "/h" "linux"
        [("shell", .obj [("files", .obj
          [("a", .obj [("source", .str "sa"), ("target", .str "/ta")])])])]).length ∧
    ((SyncAll "/cw" [] "/pd" "/h" "linux"
        [("shell", .obj [("files", .obj
          [("a", .obj [("source", .str "sa"), ("target", .str "/ta")])])])]).1.get
      ⟨0, by decide⟩).Module
      = ((GetSyncItems [] "/pd" "/h" "linux"
        [("shell", .obj [("files", .obj
          [("a", .obj [("source", .str "sa"), ("target", .str "/ta")])])])]).get
      ⟨0, by decide⟩).Module := by
  have h := C7_amended "/cw" [] "/pd" "/h" "linux"
    [("shell", .obj [("files", .obj
      [("a", .obj [("source", .str "sa"), ("target", .str "/ta")])])])]
  exact ⟨h.1, (h.2 0 (by decide) (by decide)).1⟩

/-! ## Claim C1 — diff partition invariant -/

/-- C1 (violation, evaluated at the failing input): with detected editor
default `vim` against manifest `editor.default = "emacs"`, and detected llm
local runtime `ollama` against manifest `llm.local.runtime = "lmstudio"`
(both sides non-empty and different), the pair `("emacs", "editor")` from
the manifest set appears in zero of the three lists of `compareEditor`, and
both runtime pairs appear in zero of the three lists of `compareLLM` — the
claimed exactly-one partition fails, while the detected editor `vim` is
correctly in exactly one list. -/
theorem C1_partition_violation :
    listCount (compareEditor { Default := "vim", Others := [] }
        [("editor", .obj [("default", .str "emacs")]),
         ("llm", .obj [("local", .obj [("runtime", .str "lmstudio")])])])
      "emacs" "editor" = 0 ∧
    listCount (compareEditor { Default := "vim", Others := [] }
        [("editor", .obj [("default", .str "emacs")]),
         ("llm", .obj [("local", .obj [("runtime", .str "lmstudio")])])])
      "vim" "editor" = 1 ∧
    listCount (compareLLM
        { Providers := [], Local := some { Runtime := "ollama", Models := [] }, Coding := none }
        [("editor", .obj [("default", .str "emacs")]),
         ("llm", .obj [("local", .obj [("runtime", .str "lmstudio")])])])
      "ollama" "runtime" = 0 ∧
    listCount (compareLLM
        { Providers := [], Local := some { Runtime := "ollama", Models := [] }, Coding := none }
        [("editor", .obj [("default", .str "emacs")]),
         ("llm", .obj [("local", .obj [("runtime", .str "lmstudio")])])])
      "lmstudio" "runtime" = 0 := by
  refine ⟨by decide, by decide, by decide, by decide⟩

/-! ## Claim C6 — OS-target resolution drop semantics -/

/-- C6: a file entry whose target is an OS-keyed map with no key for the
current OS resolves to an error inside `resolveTarget`, which makes
`parseFileEntry` drop the entry (`none`); an entry without a string
`source` is dropped the same way; and a dropped entry is silently omitted
from the enumeration (`GetSyncItems` has no error path besides the
directory resolution factored out into `pactDir`). -/
theorem C6_drop_semantics :
    (∀ home os (tmap : Obj), lookupKey tmap os = none →
      resolveTarget home os (some (.obj tmap)) = .error ("no target configured for " ++ os)) ∧
    (∀ fs pactDir home os module name (entry tmap : Obj),
      lookupKey entry "target" = some (.obj tmap) → lookupKey tmap os = none →
      parseFileEntry fs pactDir home os module name entry = none) ∧
    (∀ fs pactDir home os module name (entry : Obj), lookupKey entry "source" = none →
      parseFileEntry fs pactDir home os module name entry = none) ∧
    (∀ fs pactDir home os module name (entry : Obj) (files1 files2 : Obj),
      parseFileEntry fs pactDir home os module name entry = none →
      fileEntriesOf fs pactDir home os module (files1 ++ (name, .obj entry) :: files2)
        = fileEntriesOf fs pactDir home os module (files1 ++ files2)) := by
  refine ⟨?_, ?_, ?_, ?_⟩
  · intro home os tmap h
    simp [resolveTarget, h]
  · intro fs pactDir home os module name entry tmap h1 h2
    unfold parseFileEntry
    cases hs : lookupKey entry "source" with
    | none => rfl
    | some v =>
      cases v with
      | str s => simp [resolveTarget, h1, h2]
      | num n => rfl
      | bool b => rfl
      | list xs => rfl
      | obj m => rfl
  · intro fs pactDir home os module name entry h
    unfold parseFileEntry
    rw [h]
  · intro fs pactDir home os module name entry files1 files2 h
    simp [fileEntriesOf, List.filterMap_append, List.filterMap_cons, h]

/-- C6 (witness): Scenario D — target `{darwin: "~/.config/app"}` on a
`linux` machine, and a second entry with a missing source; both dropped
without affecting the rest of the enumeration. -/
theorem C6_witness :
    resolveTarget "/h" "linux" (some (.obj [("darwin", .str "~/.config/app")]))
      = .error ("no target configured for " ++ "linux") ∧
    parseFileEntry [] "/pd" "/h" "linux" "app" "cfg"
      [("source", .str "app/config"), ("target", .obj [("darwin", .str "~/.config/app")])]
      = none ∧
    parseFileEntry [] "/pd" "/h" "linux" "app" "cfg" [("target", .str "/t")] = none ∧
    fileEntriesOf [] "/pd" "/h" "linux" "app"
      ([("good", .obj [("source", .str "s"), ("target", .str "/t")])] ++
        ("cfg", .obj [("source", .str "app/config"),
          ("target", .obj [("darwin", .str "~/.config/app")])]) :: [])
      = fileEntriesOf [] "/pd" "/h" "linux" "app"
        ([("good", .obj [("source", .str "s"), ("target", .str "/t")])] ++ []) := by
  have h := C6_drop_semantics
  refine ⟨h.1 "/h" "linux" _ rfl, ?_, ?_, ?_⟩
  · exact h.2.1 [] "/pd" "/h" "linux" "app" "cfg" _ [("darwin", .str "~/.config/app")] rfl rfl
  · exact h.2.2.1 [] "/pd" "/h" "linux" "app" "cfg" _ rfl
  · exact h.2.2.2 [] "/pd" "/h" "linux" "app" "cfg" _ _ _
      (h.2.1 [] "/pd" "/h" "linux" "app" "cfg" _ [("darwin", .str "~/.config/app")] rfl rfl)

/-! ## Claim C8 — already-installed skip -/

/-- C8: when the requested tool is already on PATH (`isToolInstalled`, via
`exec.LookPath`), `installTool` returns the Result with category
`install`, success and skipped set, message `already installed`, and
spawns no subprocess. -/
theorem C8_already_installed (lookPath : String → Bool)
    (runner : List String → Option String) (pm tool : String) (h : lookPath tool = true) :
    installTool lookPath runner pm tool =
      ({ Category := "install", Module := "cli", Name := tool, Success := true,
         Skipped := true, Message := "already installed", Error := none }, []) := by
  unfold installTool
  rw [if_pos h]

/-- C8 (witness): Scenario C with `ripgrep` already on PATH under `brew`. -/
theorem C8_witness :
    installTool (fun t => t == "ripgrep") (fun _ => none) "brew" "ripgrep"
      = ({ Category := "install", Module := "cli", Name := "ripgrep", Success := true,
           Skipped := true, Message := "already installed", Error := none }, []) :=
  C8_already_installed (fun t => t == "ripgrep") (fun _ => none) "brew" "ripgrep" (by decide)

end Pact
